import Mathlib

/-!
Shallow embedding of the M-Pesa SMS parser of the SmsParserForm component
(function parseMpesaSms).  Texts are modelled as lists of characters.
JavaScript numbers produced by parseFloat are modelled as values of type
Option ℚ, where none stands for NaN and some q for the exact rational value
of the decimal literal (the embedding computes with exact rationals rather
than IEEE doubles).  The clock read by the source through
new Date().toISOString() is passed in explicitly as the `now` argument.
-/

/-- Characters of the JavaScript regex class for whitespace, which is also
the character set removed by the trim method of strings. -/
def jsWhitespace (c : Char) : Bool :=
  c == ' ' || c == '\t' || c == '\n' || c.toNat == 11 || c.toNat == 12 || c == '\r' ||
    c.toNat == 160 || c.toNat == 5760 ||
    (decide (8192 ≤ c.toNat) && decide (c.toNat ≤ 8202)) ||
    c.toNat == 8232 || c.toNat == 8233 || c.toNat == 8239 || c.toNat == 8287 ||
    c.toNat == 12288 || c.toNat == 65279

/-- The lowercasing smsText.toLowerCase() of the source, modelled on the
ASCII range (the classifier keywords and phrase templates are all ASCII). -/
def jsToLower (l : List Char) : List Char := l.map Char.toLower

/-- The trim() method of JavaScript strings: whitespace is removed from
both ends. -/
def jsTrim (l : List Char) : List Char :=
  ((l.dropWhile jsWhitespace).reverse.dropWhile jsWhitespace).reverse

/-- The comma removal amountMatch.at(1).replace of the source, with a global
comma regex: every comma is deleted. -/
def stripCommas (l : List Char) : List Char := l.filter (· != ',')

/-- Characters of the regex class holding digits and the comma. -/
def digitOrComma (c : Char) : Bool := c.isDigit || c == ','

/-- Value of a list of decimal digit characters read left to right. -/
def digitsVal (l : List Char) : ℕ := l.foldl (fun a c => 10 * a + (c.toNat - 48)) 0

/-- Digits standing after a leading dot, used by jsParseFloat below. -/
def fracPart (l : List Char) : List Char :=
  match l with
  | '.' :: r => r.takeWhile Char.isDigit
  | _ => []

/-- JavaScript parseFloat, on the alphabet the parser feeds it: after comma
removal the matched token consists of digits and at most one dot, so no
sign, exponent or leading whitespace can occur.  parseFloat reads leading
digits, an optional dot and fraction digits; when no digit at all is read
the result is NaN, modelled as none. -/
def jsParseFloat (l : List Char) : Option ℚ :=
  if (l.takeWhile Char.isDigit).isEmpty &&
      (fracPart (l.drop (l.takeWhile Char.isDigit).length)).isEmpty
  then none
  else some ((digitsVal (l.takeWhile Char.isDigit) : ℚ) +
      (digitsVal (fracPart (l.drop (l.takeWhile Char.isDigit).length)) : ℚ) /
        10 ^ (fracPart (l.drop (l.takeWhile Char.isDigit).length)).length)

/-- Negation of a JavaScript number: the negation of NaN is NaN. -/
def jsNeg (a : Option ℚ) : Option ℚ := a.map fun q => -q

/-- The capture group of the amount regex at the current position: one or
more digits or commas, greedily, then an optional dot with greedy fraction
digits.  Everything after the mandatory class can match the empty string,
so the greedy first attempt never needs to backtrack. -/
def amountToken (l : List Char) : Option (List Char) :=
  let ds := l.takeWhile digitOrComma
  if ds.isEmpty then none
  else
    match l.drop ds.length with
    | '.' :: r => some (ds ++ '.' :: r.takeWhile Char.isDigit)
    | _ => some ds

/-- The optional whitespace and the capture group that follow the literal
ksh in the amount regex.  The greedy optional whitespace is tried first;
on failure the engine retries with the whitespace unconsumed, which then
fails too because a whitespace character is not a digit or comma. -/
def amountAfterKsh : List Char → Option (List Char)
  | [] => none
  | c :: rest =>
    if jsWhitespace c then
      match amountToken rest with
      | some t => some t
      | none => amountToken (c :: rest)
    else amountToken (c :: rest)

/-- One attempt of the amount regex at the current position: the literal
ksh, optional whitespace, then the amount token. -/
def matchAmountAt : List Char → Option (List Char)
  | 'k' :: 's' :: 'h' :: rest => amountAfterKsh rest
  | _ => none

/-- Left-to-right scan of the regex engine: the pattern is attempted at
every start position in turn and the first success wins. -/
def scanFirst (m : List Char → Option (List Char)) : List Char → Option (List Char)
  | [] => m []
  | c :: rest =>
    match m (c :: rest) with
    | some r => some r
    | none => scanFirst m rest

/-- The amount-regex search sms.match of the source, returning the capture
group of the first match. -/
def findAmount (l : List Char) : Option (List Char) := scanFirst matchAmountAt l

/-- Characters other than the dot, the class of the description captures. -/
def notDot (c : Char) : Bool := c != '.'

/-- One attempt of the sent-to description regex: the literal phrase, then
a nonempty greedy run of non-dot characters as the capture. -/
def matchSentToAt : List Char → Option (List Char)
  | 's' :: 'e' :: 'n' :: 't' :: ' ' :: 't' :: 'o' :: ' ' :: rest =>
    let cap := rest.takeWhile notDot
    if cap.isEmpty then none else some cap
  | _ => none

/-- Characters of the bracketed class in the received-from regex; the
source writes the class with the four letters of the word from, so it
holds exactly those letters, not the word. -/
def fromClassChar (c : Char) : Bool := c == 'f' || c == 'r' || c == 'o' || c == 'm'

/-- One attempt of the received-from regex: the literal received, a greedy
run of characters outside the bracketed class, the literal from with a
trailing space, then a nonempty capture of non-dot characters.  Only the
maximal run needs to be examined: any shorter run would have to continue
with the letter f, yet every character inside the run lies outside the
class and hence is not f, so backtracking cannot succeed. -/
def matchReceivedFromAt : List Char → Option (List Char)
  | 'r' :: 'e' :: 'c' :: 'e' :: 'i' :: 'v' :: 'e' :: 'd' :: rest =>
    let run := rest.takeWhile (fun c => !fromClassChar c)
    match rest.drop run.length with
    | 'f' :: 'r' :: 'o' :: 'm' :: ' ' :: r2 =>
      let cap := r2.takeWhile notDot
      if cap.isEmpty then none else some cap
    | _ => none
  | _ => none

/-- One attempt of the pay-bill description regex: the literal phrase,
then a nonempty capture of non-dot characters. -/
def matchPayBillAt : List Char → Option (List Char)
  | 'p' :: 'a' :: 'y' :: ' ' :: 'b' :: 'i' :: 'l' :: 'l' :: ' ' :: 'f' :: 'o' :: 'r' :: ' ' :: rest =>
    let cap := rest.takeWhile notDot
    if cap.isEmpty then none else some cap
  | _ => none

/-- The sentToMatch search of the source. -/
def findSentTo (l : List Char) : Option (List Char) := scanFirst matchSentToAt l

/-- The receivedFromMatch search of the source. -/
def findReceivedFrom (l : List Char) : Option (List Char) := scanFirst matchReceivedFromAt l

/-- The paybillMatch search of the source. -/
def findPayBill (l : List Char) : Option (List Char) := scanFirst matchPayBillAt l

/-- The includes method of JavaScript strings: substring containment. -/
def containsSub (pat : List Char) : List Char → Bool
  | [] => pat.isEmpty
  | c :: rest => pat.isPrefixOf (c :: rest) || containsSub pat rest

/-- Lowercased outbound marker sent to. -/
def litSentTo : List Char := ['s', 'e', 'n', 't', ' ', 't', 'o']

/-- Lowercased outbound marker pay bill. -/
def litPayBill : List Char := ['p', 'a', 'y', ' ', 'b', 'i', 'l', 'l']

/-- Lowercased outbound marker buy goods. -/
def litBuyGoods : List Char := ['b', 'u', 'y', ' ', 'g', 'o', 'o', 'd', 's']

/-- Lowercased inbound marker received. -/
def litReceived : List Char := ['r', 'e', 'c', 'e', 'i', 'v', 'e', 'd']

/-- Lowercased inbound marker you have received. -/
def litYouHaveReceived : List Char :=
  ['y', 'o', 'u', ' ', 'h', 'a', 'v', 'e', ' ', 'r', 'e', 'c', 'e', 'i', 'v', 'e', 'd']

/-- Template prefix of the sent-to description. -/
def tmplSentTo : List Char := ['S', 'e', 'n', 't', ' ', 't', 'o', ' ']

/-- Template prefix of the received-from description. -/
def tmplReceivedFrom : List Char :=
  ['R', 'e', 'c', 'e', 'i', 'v', 'e', 'd', ' ', 'f', 'r', 'o', 'm', ' ']

/-- Template prefix of the pay-bill description. -/
def tmplPayBill : List Char := ['P', 'a', 'y', ' ', 'b', 'i', 'l', 'l', ':', ' ']

/-- The generic fallback description of the source. -/
def litGeneric : List Char :=
  ['M', '-', 'P', 'e', 's', 'a', ' ', 't', 'r', 'a', 'n', 's', 'a', 'c', 't', 'i', 'o', 'n']

/-- The constant payment method of the source. -/
def litMpesa : List Char := ['M', '-', 'P', 'e', 's', 'a']

/-- The isSent flag of the source: one of the outbound markers occurs.
The source computes this flag but never reads it when choosing the sign
of the amount. -/
def isSentText (sms : List Char) : Bool :=
  containsSub litSentTo sms || containsSub litPayBill sms || containsSub litBuyGoods sms

/-- The isReceived flag of the source: one of the inbound markers occurs. -/
def isReceivedText (sms : List Char) : Bool :=
  containsSub litReceived sms || containsSub litYouHaveReceived sms

/-- The description chain of the source: the sent-to template first, then
received-from, then pay-bill, and the generic label when nothing matches.
Each capture is trimmed before being appended to its template. -/
def descriptionOf (sms : List Char) : List Char :=
  match findSentTo sms with
  | some cap => tmplSentTo ++ jsTrim cap
  | none =>
    match findReceivedFrom sms with
    | some cap => tmplReceivedFrom ++ jsTrim cap
    | none =>
      match findPayBill sms with
      | some cap => tmplPayBill ++ jsTrim cap
      | none => litGeneric

/-- The partial transaction returned by the parser: the amount, the
description, the constant payment method and the date stamp. -/
structure MpesaTxn where
  amount : Option ℚ
  description : List Char
  payment_method : List Char
  date : List Char
  deriving DecidableEq, Repr

/-- The parser of the source.  The text is lowercased once; when the
amount regex finds no match the parser returns null, otherwise the comma
stripped capture is fed to parseFloat and the sign is chosen by the
isReceived flag alone (the isSent flag of the source is dead).  The date
field records the clock value passed in as now. -/
def parseMpesaSms (now smsText : List Char) : Option MpesaTxn :=
  match findAmount (jsToLower smsText) with
  | none => none
  | some tok =>
    some { amount := if isReceivedText (jsToLower smsText)
                     then jsParseFloat (stripCommas tok)
                     else jsNeg (jsParseFloat (stripCommas tok))
         , description := descriptionOf (jsToLower smsText)
         , payment_method := litMpesa
         , date := now }

/-- Projection that forgets the date stamp of a parsed transaction. -/
def stripDate (r : MpesaTxn) : Option ℚ × List Char × List Char :=
  (r.amount, r.description, r.payment_method)

/-- A sample clock value. -/
def litNow : List Char := ['2', '0', '2', '4']

/-- A second, different sample clock value. -/
def litNow2 : List Char := ['2', '0', '2', '5']

/-- Text holding the amount Ksh100, the outbound marker sent to, and the
word received. -/
def cexC1 : List Char :=
  ['K', 's', 'h', '1', '0', '0', ' ', 's', 'e', 'n', 't', ' ', 't', 'o', ' ',
   'j', 'o', 'h', 'n', ' ', 'r', 'e', 'c', 'e', 'i', 'v', 'e', 'd']

/-- Amount token of cexC1. -/
def tokC1 : List Char := ['1', '0', '0']

/-- Description produced for cexC1. -/
def descCexC1 : List Char :=
  tmplSentTo ++ ['j', 'o', 'h', 'n', ' ', 'r', 'e', 'c', 'e', 'i', 'v', 'e', 'd']

/-- Text with the amount Ksh9 sent to bob and no inbound marker. -/
def witC1 : List Char :=
  ['K', 's', 'h', '9', ' ', 's', 'e', 'n', 't', ' ', 't', 'o', ' ', 'b', 'o', 'b']

/-- Amount token of witC1. -/
def tok9 : List Char := ['9']

/-- Text holding just the amount Ksh5. -/
def cexC2 : List Char := ['K', 's', 'h', '5']

/-- Amount token of cexC2. -/
def tok5 : List Char := ['5']

/-- The sample text of claim C3: Ksh1,200.00 sent to JOHN. -/
def subC3 : List Char :=
  ['K', 's', 'h', '1', ',', '2', '0', '0', '.', '0', '0', ' ',
   's', 'e', 'n', 't', ' ', 't', 'o', ' ', 'J', 'O', 'H', 'N']

/-- The sample text of claim C3 preceded by a smaller amount Ksh9. -/
def cexC3b : List Char := ['K', 's', 'h', '9', ' '] ++ subC3

/-- The uppercase name JOHN. -/
def litJOHN : List Char := ['J', 'O', 'H', 'N']

/-- The lowercase name john. -/
def litjohn : List Char := ['j', 'o', 'h', 'n']

/-- Description produced for the sample text of claim C3. -/
def descC3 : List Char := tmplSentTo ++ litjohn

/-- Amount token of the sample text of claim C3. -/
def tokC3 : List Char := ['1', ',', '2', '0', '0', '.', '0', '0']

/-- Text with no currency marker at all. -/
def litHi : List Char := ['h', 'i']

/-- Text containing Ksh500 as a proper substring of the larger amount
Ksh5001, together with a received-from phrase. -/
def cexC5 : List Char :=
  ['K', 's', 'h', '5', '0', '0', '1', ' ', 'r', 'e', 'c', 'e', 'i', 'v', 'e', 'd', ' ',
   'c', 'a', 's', 'h', ' ', 'f', 'r', 'o', 'm', ' ', 'J', 'A', 'N', 'E']

/-- Amount token of cexC5. -/
def tokC5 : List Char := ['5', '0', '0', '1']

/-- Description produced for cexC5. -/
def descCexC5 : List Char := tmplReceivedFrom ++ ['j', 'a', 'n', 'e']

/-- The amount marker Ksh500 of claim C5. -/
def litKsh500 : List Char := ['K', 's', 'h', '5', '0', '0']

/-- The amount token named by claim C5. -/
def tok500 : List Char := ['5', '0', '0']

/-- Text whose first amount token is 500 with a received-from phrase. -/
def witC5 : List Char :=
  ['K', 's', 'h', '5', '0', '0', ' ', 'r', 'e', 'c', 'e', 'i', 'v', 'e', 'd', ' ',
   'c', 'a', 's', 'h', ' ', 'f', 'r', 'o', 'm', ' ', 'J', 'A', 'N', 'E']

/-- The sample text of claim C6: Ksh12,345.67. -/
def witC6 : List Char :=
  ['K', 's', 'h', '1', '2', ',', '3', '4', '5', '.', '6', '7']

/-- Amount token of witC6, holding a thousands separator. -/
def tokC6 : List Char := ['1', '2', ',', '3', '4', '5', '.', '6', '7']

/-- Integer digits of tokC6 after comma removal. -/
def ipC6 : List Char := ['1', '2', '3', '4', '5']

/-- Fraction digits of tokC6. -/
def fpC6 : List Char := ['6', '7']

/-- Text holding the amount Ksh0 and no direction keyword. -/
def cexC7 : List Char := ['K', 's', 'h', '0']

/-- Amount token of cexC7. -/
def tok0 : List Char := ['0']

/-- Text holding the amount Ksh7 and no direction keyword. -/
def witC7 : List Char := ['K', 's', 'h', '7', ' ', 'l', 'u', 'n', 'c', 'h']

/-- Amount token of witC7. -/
def tok7 : List Char := ['7']

/-- Text in which both the sent-to and the pay-bill phrase match. -/
def witC8 : List Char :=
  ['K', 's', 'h', '5', ' ', 's', 'e', 'n', 't', ' ', 't', 'o', ' ', 'a', 'n', 'n', '.', ' ',
   'p', 'a', 'y', ' ', 'b', 'i', 'l', 'l', ' ', 'f', 'o', 'r', ' ', 'b', 'o', 'b', '.']

/-- Sent-to capture of witC8. -/
def capAnn : List Char := ['a', 'n', 'n']

/-- Pay-bill capture of witC8. -/
def capBob : List Char := ['b', 'o', 'b']

/-- Text in which the amount token consists of a lone comma. -/
def cexC9 : List Char := ['k', 's', 'h', ',']

/-- The digit-free amount token of cexC9. -/
def litComma : List Char := [',']

/-- Text holding the amount Ksh0 and the word received. -/
def cexC10 : List Char :=
  ['K', 's', 'h', '0', ' ', 'r', 'e', 'c', 'e', 'i', 'v', 'e', 'd']

/-- Text holding the amount Ksh3 and the word received. -/
def witC10 : List Char :=
  ['K', 's', 'h', '3', ' ', 'r', 'e', 'c', 'e', 'i', 'v', 'e', 'd']

/-- Amount token of witC10. -/
def tok3 : List Char := ['3']

/-- Taking while a predicate holds walks through a block on which it holds
everywhere and continues behind it. -/
theorem takeWhile_append_of_all (p : Char → Bool) (l₁ l₂ : List Char)
    (h : ∀ c ∈ l₁, p c = true) :
    (l₁ ++ l₂).takeWhile p = l₁ ++ l₂.takeWhile p := by
  induction l₁ with
  | nil => simp
  | cons c rest ih =>
    have hc : p c = true := h c (List.mem_cons_self c rest)
    simp [List.takeWhile_cons, hc, ih fun d hd => h d (List.mem_cons_of_mem c hd)]

/-- Taking while a predicate holds keeps a list on which it holds
everywhere. -/
theorem takeWhile_eq_self_of_all (p : Char → Bool) (l : List Char)
    (h : ∀ c ∈ l, p c = true) : l.takeWhile p = l := by
  have h2 := takeWhile_append_of_all p l [] h
  simpa using h2

/-- Value of parseFloat on a token of digits, a dot and fraction digits. -/
theorem jsParseFloat_intfrac (ip fp : List Char)
    (hip : ∀ c ∈ ip, c.isDigit = true) (hfp : ∀ c ∈ fp, c.isDigit = true)
    (hne : ip ≠ [] ∨ fp ≠ []) :
    jsParseFloat (ip ++ '.' :: fp) =
      some ((digitsVal ip : ℚ) + (digitsVal fp : ℚ) / 10 ^ fp.length) := by
  have hdot : Char.isDigit '.' = false := by decide
  have h1 : (ip ++ '.' :: fp).takeWhile Char.isDigit = ip := by
    rw [takeWhile_append_of_all _ _ _ hip]
    simp [List.takeWhile_cons, hdot]
  have h2 : (ip ++ '.' :: fp).drop ip.length = '.' :: fp := List.drop_left ip ('.' :: fp)
  have h3 : fracPart ('.' :: fp) = fp := by
    simp [fracPart, takeWhile_eq_self_of_all _ _ hfp]
  have hcond : (ip.isEmpty && fp.isEmpty) = false := by
    rcases hne with h | h
    · cases ip with
      | nil => exact absurd rfl h
      | cons a as => rfl
    · cases fp with
      | nil => exact absurd rfl h
      | cons a as => simp [List.isEmpty]
  unfold jsParseFloat
  rw [h1, h2, h3, hcond]
  simp

/-- Value of parseFloat on a token of digits with no dot. -/
theorem jsParseFloat_digits (ip : List Char)
    (hip : ∀ c ∈ ip, c.isDigit = true) (hne : ip ≠ []) :
    jsParseFloat ip = some (digitsVal ip : ℚ) := by
  have h1 : ip.takeWhile Char.isDigit = ip := takeWhile_eq_self_of_all _ _ hip
  have hcond : ip.isEmpty = false := by
    cases ip with
    | nil => exact absurd rfl hne
    | cons a as => rfl
  unfold jsParseFloat
  rw [h1, List.drop_length]
  show (if (ip.isEmpty && (fracPart []).isEmpty) = true then _ else _) = _
  rw [hcond]
  simp [fracPart, digitsVal]

/-- The left-to-right scan of the regex engine misses nothing: it returns
no match exactly when the pattern fails at every start position, start
positions being the suffixes of the text. -/
theorem scanFirst_eq_none_iff (m : List Char → Option (List Char)) (l : List Char) :
    scanFirst m l = none ↔ ∀ t, t <:+ l → m t = none := by
  induction l with
  | nil =>
    constructor
    · intro h t ht
      rw [List.suffix_nil.mp ht]
      simpa [scanFirst] using h
    · intro h
      simpa [scanFirst] using h [] List.suffix_rfl
  | cons c rest ih =>
    constructor
    · intro h t ht
      rcases List.suffix_cons_iff.mp ht with rfl | hts
      · cases hm : m (c :: rest) with
        | none => rfl
        | some r => simp [scanFirst, hm] at h
      · have hrest : scanFirst m rest = none := by
          cases hm : m (c :: rest) with
          | none => simpa [scanFirst, hm] using h
          | some r => simp [scanFirst, hm] at h
        exact ih.mp hrest t hts
    · intro h
      have hm : m (c :: rest) = none := h (c :: rest) List.suffix_rfl
      have hrest : scanFirst m rest = none :=
        ih.mpr fun t ht => h t (ht.trans (List.suffix_cons c rest))
      simp [scanFirst, hm, hrest]

/-- The includes method decides substring containment. -/
theorem containsSub_iff (pat : List Char) : ∀ l : List Char,
    containsSub pat l = true ↔ pat <:+: l := by
  intro l
  induction l with
  | nil =>
    constructor
    · intro h
      cases pat with
      | nil => exact ⟨[], [], rfl⟩
      | cons a as => simp [containsSub, List.isEmpty] at h
    · rintro ⟨s, t, he⟩
      rcases List.append_eq_nil.mp he with ⟨h1, h2⟩
      rcases List.append_eq_nil.mp h1 with ⟨h3, h4⟩
      subst h4
      simp [containsSub]
  | cons c rest ih =>
    constructor
    · intro h
      have h2 : pat <+: c :: rest ∨ containsSub pat rest = true := by
        simpa [containsSub] using h
      rcases h2 with h | h
      · exact h.isInfix
      · rcases ih.mp h with ⟨s, t, he⟩
        exact ⟨c :: s, t, by simp [he]⟩
    · rintro ⟨s, t, he⟩
      cases s with
      | nil =>
        have hp : pat <+: c :: rest := ⟨t, by simpa using he⟩
        simp [containsSub]
        exact Or.inl hp
      | cons s0 s' =>
        have he' : s' ++ pat ++ t = rest := by
          have h3 := he
          simp only [List.cons_append] at h3
          exact (List.cons_eq_cons.mp h3).2
        have h4 : containsSub pat rest = true := ih.mpr ⟨s', t, he'⟩
        simp [containsSub, h4]

/-- The second inbound marker of the source is redundant: the flag
isReceived is equivalent to containment of the word received alone,
because the phrase you have received itself contains that word. -/
theorem isReceivedText_eq_received (l : List Char) :
    isReceivedText l = containsSub litReceived l := by
  unfold isReceivedText
  cases h : containsSub litReceived l with
  | true => simp
  | false =>
    cases h2 : containsSub litYouHaveReceived l with
    | false => simp
    | true =>
      exfalso
      have hy : litYouHaveReceived <:+: l := (containsSub_iff _ _).mp h2
      have hr : litReceived <:+: litYouHaveReceived := (containsSub_iff _ _).mp (by decide)
      have hc : containsSub litReceived l = true := (containsSub_iff _ _).mpr (hr.trans hy)
      rw [h] at hc
      exact Bool.false_ne_true hc

/-- When the amount regex matches, the parser returns the record built
from the matched token, the description chain and the clock value. -/
theorem parse_eq_some (now s tok : List Char) (hm : findAmount (jsToLower s) = some tok) :
    parseMpesaSms now s = some
      { amount := if isReceivedText (jsToLower s)
                  then jsParseFloat (stripCommas tok)
                  else jsNeg (jsParseFloat (stripCommas tok))
      , description := descriptionOf (jsToLower s)
      , payment_method := litMpesa
      , date := now } := by
  unfold parseMpesaSms
  rw [hm]

/-- The date stamp is the only field that depends on the clock value. -/
theorem parse_proj (now s : List Char) :
    (parseMpesaSms now s).map stripDate = (parseMpesaSms [] s).map stripDate := by
  unfold parseMpesaSms
  cases h : findAmount (jsToLower s) <;> simp [stripDate]

/-- Claim C1, counterexample: the text of cexC1 holds the outbound marker
sent to and a recognized amount, yet the parser returns the positive
amount 100, because the word received also occurs and the sign test of
the source consults the received flag only. -/
theorem claimC1_counterexample :
    isSentText (jsToLower cexC1) = true ∧
    parseMpesaSms litNow cexC1 = some ⟨some 100, descCexC1, litMpesa, litNow⟩ ∧
    ¬ ((100 : ℚ) < 0) := by
  refine ⟨by decide, ?_, by norm_num⟩
  rw [parse_eq_some litNow cexC1 tokC1 (by decide)]
  have hr : isReceivedText (jsToLower cexC1) = true := by decide
  have ha : jsParseFloat (stripCommas tokC1) = some 100 := by
    rw [show stripCommas tokC1 = ['1', '0', '0'] from by decide,
      jsParseFloat_digits _ (by decide) (by decide)]
    norm_num [show digitsVal ['1', '0', '0'] = 100 from by decide]
  have hd : descriptionOf (jsToLower cexC1) = descCexC1 := by decide
  simp [hr, ha, hd]

/-- Claim C1 as amended: when a currency amount is recognized, its token
parses to a positive value, the lowercased text holds an outbound marker
and the word received does not occur, the parser returns a negative
amount. -/
theorem claimC1_amended (now s tok : List Char) (v : ℚ)
    (hm : findAmount (jsToLower s) = some tok)
    (hv : jsParseFloat (stripCommas tok) = some v)
    (hpos : 0 < v)
    (hsent : isSentText (jsToLower s) = true)
    (hrec : isReceivedText (jsToLower s) = false) :
    ∃ r, parseMpesaSms now s = some r ∧ ∃ q, r.amount = some q ∧ q < 0 := by
  refine ⟨_, parse_eq_some now s tok hm, -v, ?_, by linarith⟩
  simp [hrec, hv, jsNeg]

/-- Claim C1, witness: the text Ksh9 sent to bob satisfies every
hypothesis of the amended claim and indeed parses to a negative amount. -/
theorem claimC1_witness :
    findAmount (jsToLower witC1) = some tok9 ∧
    isSentText (jsToLower witC1) = true ∧
    isReceivedText (jsToLower witC1) = false ∧
    (∃ r, parseMpesaSms litNow witC1 = some r ∧ ∃ q, r.amount = some q ∧ q < 0) := by
  have ha : jsParseFloat (stripCommas tok9) = some 9 := by
    rw [show stripCommas tok9 = ['9'] from by decide,
      jsParseFloat_digits _ (by decide) (by decide)]
    norm_num [show digitsVal ['9'] = 9 from by decide]
  exact ⟨by decide, by decide, by decide,
    claimC1_amended litNow witC1 tok9 9 (by decide) ha (by norm_num) (by decide) (by decide)⟩

/-- Claim C2, counterexample: two calls on the same text with different
clock values return different results, the date field differing. -/
theorem claimC2_counterexample :
    parseMpesaSms litNow cexC2 ≠ parseMpesaSms litNow2 cexC2 := by
  intro h
  rw [parse_eq_some litNow cexC2 tok5 (by decide),
    parse_eq_some litNow2 cexC2 tok5 (by decide)] at h
  have hd := congrArg (fun o => Option.map MpesaTxn.date o) h
  simp at hd
  exact absurd hd (by decide)

/-- Claim C2 as amended: two calls on the same text agree on every field
except the date stamp; the amount, the description and the payment method
do not depend on the clock. -/
theorem claimC2_amended (n1 n2 s : List Char) :
    (parseMpesaSms n1 s).map stripDate = (parseMpesaSms n2 s).map stripDate := by
  rw [parse_proj n1 s, parse_proj n2 s]

/-- Claim C2, witness: closed instance of the amended claim. -/
theorem claimC2_witness :
    (parseMpesaSms litNow cexC2).map stripDate = (parseMpesaSms litNow2 cexC2).map stripDate :=
  claimC2_amended litNow litNow2 cexC2

/-- Claim C3, counterexample: on the sample text itself the description is
Sent to john, which does not contain the uppercase JOHN, because the
parser lowercases the text first; and on a text holding the sample as a
proper substring behind a smaller amount Ksh9, the returned amount is
minus 9 rather than minus 1200, because the first amount token wins. -/
theorem claimC3_counterexample :
    (containsSub subC3 subC3 = true ∧
      (parseMpesaSms litNow subC3).map stripDate = some (some (-1200), descC3, litMpesa) ∧
      containsSub litJOHN descC3 = false) ∧
    (containsSub subC3 cexC3b = true ∧
      (parseMpesaSms litNow cexC3b).map stripDate = some (some (-9), descC3, litMpesa) ∧
      ((-9 : ℚ) ≠ -1200)) := by
  constructor
  · refine ⟨by decide, ?_, by decide⟩
    rw [parse_eq_some litNow subC3 tokC3 (by decide)]
    have hr : isReceivedText (jsToLower subC3) = false := by decide
    have ha : jsParseFloat (stripCommas tokC3) = some 1200 := by
      rw [show stripCommas tokC3 = ['1', '2', '0', '0'] ++ '.' :: ['0', '0'] from by decide,
        jsParseFloat_intfrac _ _ (by decide) (by decide) (by decide)]
      norm_num [show digitsVal ['1', '2', '0', '0'] = 1200 from by decide,
        show digitsVal ['0', '0'] = 0 from by decide]
    have hd : descriptionOf (jsToLower subC3) = descC3 := by decide
    simp [hr, ha, hd, stripDate, jsNeg]
  · refine ⟨by decide, ?_, by norm_num⟩
    rw [parse_eq_some litNow cexC3b tok9 (by decide)]
    have hr : isReceivedText (jsToLower cexC3b) = false := by decide
    have ha : jsParseFloat (stripCommas tok9) = some 9 := by
      rw [show stripCommas tok9 = ['9'] from by decide,
        jsParseFloat_digits _ (by decide) (by decide)]
      norm_num [show digitsVal ['9'] = 9 from by decide]
    have hd : descriptionOf (jsToLower cexC3b) = descC3 := by decide
    simp [hr, ha, hd, stripDate, jsNeg]

/-- Claim C3 as amended: on the exact sample text Ksh1,200.00 sent to
JOHN, whatever the clock value, the parser returns amount minus 1200 and
the description Sent to john, which contains the lowercased name john. -/
theorem claimC3_amended (now : List Char) :
    (parseMpesaSms now subC3).map stripDate = some (some (-1200), descC3, litMpesa) ∧
    containsSub litjohn descC3 = true := by
  constructor
  · rw [parse_eq_some now subC3 tokC3 (by decide)]
    have hr : isReceivedText (jsToLower subC3) = false := by decide
    have ha : jsParseFloat (stripCommas tokC3) = some 1200 := by
      rw [show stripCommas tokC3 = ['1', '2', '0', '0'] ++ '.' :: ['0', '0'] from by decide,
        jsParseFloat_intfrac _ _ (by decide) (by decide) (by decide)]
      norm_num [show digitsVal ['1', '2', '0', '0'] = 1200 from by decide,
        show digitsVal ['0', '0'] = 0 from by decide]
    have hd : descriptionOf (jsToLower subC3) = descC3 := by decide
    simp [hr, ha, hd, stripDate, jsNeg]
  · decide

/-- Claim C3, witness: closed instance of the amended claim. -/
theorem claimC3_witness :
    (parseMpesaSms litNow subC3).map stripDate = some (some (-1200), descC3, litMpesa) ∧
    containsSub litjohn descC3 = true :=
  claimC3_amended litNow

/-- Claim C4: the parser returns null exactly when the amount pattern,
the literal ksh with optional whitespace and then a digit-and-comma token
with optional decimal part, matches at no position of the lowercased
text; being a total function, the embedding has no other failure mode. -/
theorem claimC4 (now s : List Char) :
    parseMpesaSms now s = none ↔ ∀ t, t <:+ jsToLower s → matchAmountAt t = none := by
  rw [← scanFirst_eq_none_iff]
  show parseMpesaSms now s = none ↔ findAmount (jsToLower s) = none
  unfold parseMpesaSms
  cases h : findAmount (jsToLower s) <;> simp

/-- Claim C4, witness: a text with no currency marker parses to null. -/
theorem claimC4_witness : parseMpesaSms litNow litHi = none :=
  (claimC4 litNow litHi).mpr
    ((scanFirst_eq_none_iff matchAmountAt (jsToLower litHi)).mp (by decide))

/-- Claim C5, counterexample: the text of cexC5 contains the marker
Ksh500 as a substring and a received-from phrase, yet the parser returns
5001, because the matched token is the longer run 5001. -/
theorem claimC5_counterexample :
    containsSub litKsh500 cexC5 = true ∧
    (parseMpesaSms litNow cexC5).map stripDate = some (some 5001, descCexC5, litMpesa) ∧
    ((5001 : ℚ) ≠ 500) := by
  refine ⟨by decide, ?_, by norm_num⟩
  rw [parse_eq_some litNow cexC5 tokC5 (by decide)]
  have hr : isReceivedText (jsToLower cexC5) = true := by decide
  have ha : jsParseFloat (stripCommas tokC5) = some 5001 := by
    rw [show stripCommas tokC5 = ['5', '0', '0', '1'] from by decide,
      jsParseFloat_digits _ (by decide) (by decide)]
    norm_num [show digitsVal ['5', '0', '0', '1'] = 5001 from by decide]
  have hd : descriptionOf (jsToLower cexC5) = descCexC5 := by decide
  simp [hr, ha, hd, stripDate]

/-- Claim C5 as amended: whenever the first recognized amount token is
500 and the lowercased text holds an inbound marker, the parser returns
the positive amount 500. -/
theorem claimC5_amended (now s : List Char)
    (hm : findAmount (jsToLower s) = some tok500)
    (hrec : isReceivedText (jsToLower s) = true) :
    ∃ r, parseMpesaSms now s = some r ∧ r.amount = some 500 := by
  refine ⟨_, parse_eq_some now s tok500 hm, ?_⟩
  have ha : jsParseFloat (stripCommas tok500) = some 500 := by
    rw [show stripCommas tok500 = ['5', '0', '0'] from by decide,
      jsParseFloat_digits _ (by decide) (by decide)]
    norm_num [show digitsVal ['5', '0', '0'] = 500 from by decide]
  simp [hrec, ha]

/-- Claim C5, witness: the text Ksh500 received cash from JANE satisfies
the hypotheses of the amended claim and parses to plus 500. -/
theorem claimC5_witness :
    findAmount (jsToLower witC5) = some tok500 ∧
    isReceivedText (jsToLower witC5) = true ∧
    (∃ r, parseMpesaSms litNow witC5 = some r ∧ r.amount = some 500) :=
  ⟨by decide, by decide, claimC5_amended litNow witC5 (by decide) (by decide)⟩

/-- Claim C6: when an amount is recognized, the magnitude of the returned
amount is the decimal value of the matched token with every comma deleted,
the decimal value of a digit string ip, an optional dot and a digit string
fp being ip plus fp scaled down by a power of ten. -/
theorem claimC6 (now s tok ip fp : List Char)
    (hm : findAmount (jsToLower s) = some tok)
    (hip : ∀ c ∈ ip, c.isDigit = true) (hfp : ∀ c ∈ fp, c.isDigit = true)
    (hsplit : stripCommas tok = ip ++ '.' :: fp ∨ (stripCommas tok = ip ∧ fp = []))
    (hne : ip ≠ [] ∨ fp ≠ []) :
    ∃ r, parseMpesaSms now s = some r ∧ ∃ q, r.amount = some q ∧
      |q| = (digitsVal ip : ℚ) + (digitsVal fp : ℚ) / 10 ^ fp.length := by
  have hval : jsParseFloat (stripCommas tok) =
      some ((digitsVal ip : ℚ) + (digitsVal fp : ℚ) / 10 ^ fp.length) := by
    rcases hsplit with h | ⟨h, hfpnil⟩
    · rw [h]
      exact jsParseFloat_intfrac ip fp hip hfp hne
    · have hne' : ip ≠ [] := by
        rcases hne with h' | h'
        · exact h'
        · exact absurd hfpnil h'
      subst hfpnil
      rw [h, jsParseFloat_digits ip hip hne']
      norm_num [digitsVal]
  have hnn : (0 : ℚ) ≤ (digitsVal ip : ℚ) + (digitsVal fp : ℚ) / 10 ^ fp.length := by
    positivity
  refine ⟨_, parse_eq_some now s tok hm, ?_⟩
  cases hr : isReceivedText (jsToLower s) with
  | true =>
    refine ⟨(digitsVal ip : ℚ) + (digitsVal fp : ℚ) / 10 ^ fp.length, ?_, ?_⟩
    · simp [hr, hval]
    · exact abs_of_nonneg hnn
  | false =>
    refine ⟨-((digitsVal ip : ℚ) + (digitsVal fp : ℚ) / 10 ^ fp.length), ?_, ?_⟩
    · simp [hr, hval, jsNeg]
    · rw [abs_neg]
      exact abs_of_nonneg hnn

/-- Claim C6, witness: on the text Ksh12,345.67 the matched token holds a
thousands separator, its comma-stripped decomposition is 12345 dot 67,
and the parsed magnitude is exactly 12345.67. -/
theorem claimC6_witness :
    findAmount (jsToLower witC6) = some tokC6 ∧
    stripCommas tokC6 = ipC6 ++ '.' :: fpC6 ∧
    ((digitsVal ipC6 : ℚ) + (digitsVal fpC6 : ℚ) / 10 ^ fpC6.length = 1234567 / 100) ∧
    (∃ r, parseMpesaSms litNow witC6 = some r ∧ ∃ q, r.amount = some q ∧
      |q| = (digitsVal ipC6 : ℚ) + (digitsVal fpC6 : ℚ) / 10 ^ fpC6.length) := by
  refine ⟨by decide, by decide, ?_,
    claimC6 litNow witC6 tokC6 ipC6 fpC6 (by decide) (by decide) (by decide)
      (Or.inl (by decide)) (Or.inl (by decide))⟩
  rw [show digitsVal ipC6 = 12345 from by decide, show digitsVal fpC6 = 67 from by decide,
    show fpC6.length = 2 from by decide]
  norm_num

/-- Claim C7, counterexample: the text Ksh0 holds a recognized amount and
no direction keyword, yet the returned amount is 0, which is not
negative. -/
theorem claimC7_counterexample :
    parseMpesaSms litNow cexC7 = some ⟨some 0, litGeneric, litMpesa, litNow⟩ ∧
    isSentText (jsToLower cexC7) = false ∧
    isReceivedText (jsToLower cexC7) = false ∧
    ¬ ((0 : ℚ) < 0) := by
  refine ⟨?_, by decide, by decide, by norm_num⟩
  rw [parse_eq_some litNow cexC7 tok0 (by decide)]
  have hr : isReceivedText (jsToLower cexC7) = false := by decide
  have ha : jsParseFloat (stripCommas tok0) = some 0 := by
    rw [show stripCommas tok0 = ['0'] from by decide,
      jsParseFloat_digits _ (by decide) (by decide)]
    norm_num [show digitsVal ['0'] = 0 from by decide]
  have hd : descriptionOf (jsToLower cexC7) = litGeneric := by decide
  simp [hr, ha, hd, jsNeg]

/-- Claim C7 as amended: when a currency amount is recognized, its token
parses to a positive value and the lowercased text holds no direction
keyword at all, the parser returns a negative amount. -/
theorem claimC7_amended (now s tok : List Char) (v : ℚ)
    (hm : findAmount (jsToLower s) = some tok)
    (hv : jsParseFloat (stripCommas tok) = some v)
    (hpos : 0 < v)
    (hsent : isSentText (jsToLower s) = false)
    (hrec : isReceivedText (jsToLower s) = false) :
    ∃ r, parseMpesaSms now s = some r ∧ ∃ q, r.amount = some q ∧ q < 0 := by
  refine ⟨_, parse_eq_some now s tok hm, -v, ?_, by linarith⟩
  simp [hrec, hv, jsNeg]

/-- Claim C7, witness: the text Ksh7 lunch holds no direction keyword and
parses to the negative amount minus 7. -/
theorem claimC7_witness :
    findAmount (jsToLower witC7) = some tok7 ∧
    isSentText (jsToLower witC7) = false ∧
    isReceivedText (jsToLower witC7) = false ∧
    (∃ r, parseMpesaSms litNow witC7 = some r ∧ ∃ q, r.amount = some q ∧ q < 0) := by
  have ha : jsParseFloat (stripCommas tok7) = some 7 := by
    rw [show stripCommas tok7 = ['7'] from by decide,
      jsParseFloat_digits _ (by decide) (by decide)]
    norm_num [show digitsVal ['7'] = 7 from by decide]
  exact ⟨by decide, by decide, by decide,
    claimC7_amended litNow witC7 tok7 7 (by decide) ha (by norm_num) (by decide) (by decide)⟩

/-- Claim C8: when an amount is recognized the description is built by
the fixed priority chain: a sent-to match wins over everything, then a
received-from match, then a pay-bill match, and when none of the three
phrases matches the description is the generic label. -/
theorem claimC8 (now s tok : List Char)
    (hm : findAmount (jsToLower s) = some tok) :
    ∃ r, parseMpesaSms now s = some r ∧
      (∀ cap, findSentTo (jsToLower s) = some cap →
        r.description = tmplSentTo ++ jsTrim cap) ∧
      (findSentTo (jsToLower s) = none →
        ∀ cap, findReceivedFrom (jsToLower s) = some cap →
          r.description = tmplReceivedFrom ++ jsTrim cap) ∧
      (findSentTo (jsToLower s) = none → findReceivedFrom (jsToLower s) = none →
        ∀ cap, findPayBill (jsToLower s) = some cap →
          r.description = tmplPayBill ++ jsTrim cap) ∧
      (findSentTo (jsToLower s) = none → findReceivedFrom (jsToLower s) = none →
        findPayBill (jsToLower s) = none → r.description = litGeneric) := by
  refine ⟨_, parse_eq_some now s tok hm, ?_, ?_, ?_, ?_⟩
  · intro cap hcap
    simp [descriptionOf, hcap]
  · intro h1 cap hcap
    simp [descriptionOf, h1, hcap]
  · intro h1 h2 cap hcap
    simp [descriptionOf, h1, h2, hcap]
  · intro h1 h2 h3
    simp [descriptionOf, h1, h2, h3]

/-- Claim C8, witness: in the text of witC8 both the sent-to and the
pay-bill phrase match, and the sent-to template wins. -/
theorem claimC8_witness :
    findAmount (jsToLower witC8) = some tok5 ∧
    findSentTo (jsToLower witC8) = some capAnn ∧
    findPayBill (jsToLower witC8) = some capBob ∧
    (∃ r, parseMpesaSms litNow witC8 = some r ∧
      r.description = tmplSentTo ++ jsTrim capAnn) := by
  refine ⟨by decide, by decide, by decide, ?_⟩
  obtain ⟨r, hr, h1, h2, h3, h4⟩ := claimC8 litNow witC8 tok5 (by decide)
  exact ⟨r, hr, h1 capAnn (by decide)⟩

/-- Claim C9: on the text ksh comma the amount pattern accepts the
digit-free token consisting of a lone comma, and the parser returns a
populated result whose amount is NaN, modelled as none: the numeric parse
of the comma-stripped empty string is unguarded. -/
theorem claimC9 (now : List Char) :
    findAmount (jsToLower cexC9) = some litComma ∧
    (parseMpesaSms now cexC9).map stripDate = some (none, litGeneric, litMpesa) := by
  refine ⟨by decide, ?_⟩
  rw [parse_eq_some now cexC9 litComma (by decide)]
  have hr : isReceivedText (jsToLower cexC9) = false := by decide
  have ha : jsParseFloat (stripCommas litComma) = none := by decide
  have hd : descriptionOf (jsToLower cexC9) = litGeneric := by decide
  simp [hr, ha, hd, jsNeg, stripDate]

/-- Claim C9, witness: closed instance at a sample clock value. -/
theorem claimC9_witness :
    findAmount (jsToLower cexC9) = some litComma ∧
    (parseMpesaSms litNow cexC9).map stripDate = some (none, litGeneric, litMpesa) :=
  claimC9 litNow

/-- Claim C10, counterexample: the text Ksh0 received contains the word
received, yet the returned amount 0 is not positive, so the sign gloss of
the claim fails on a zero token. -/
theorem claimC10_counterexample :
    containsSub litReceived (jsToLower cexC10) = true ∧
    parseMpesaSms litNow cexC10 = some ⟨some 0, litGeneric, litMpesa, litNow⟩ ∧
    ¬ ((0 : ℚ) < 0) := by
  refine ⟨by decide, ?_, by norm_num⟩
  rw [parse_eq_some litNow cexC10 tok0 (by decide)]
  have hr : isReceivedText (jsToLower cexC10) = true := by decide
  have ha : jsParseFloat (stripCommas tok0) = some 0 := by
    rw [show stripCommas tok0 = ['0'] from by decide,
      jsParseFloat_digits _ (by decide) (by decide)]
    norm_num [show digitsVal ['0'] = 0 from by decide]
  have hd : descriptionOf (jsToLower cexC10) = litGeneric := by decide
  simp [hr, ha, hd]

/-- Claim C10 as amended: when the matched token parses to the value v,
the returned amount is v when the lowercased text contains the word
received and minus v otherwise; the outbound markers play no role, and
for a positive v the sign is positive exactly when received occurs. -/
theorem claimC10_amended (now s tok : List Char) (v : ℚ)
    (hm : findAmount (jsToLower s) = some tok)
    (hv : jsParseFloat (stripCommas tok) = some v) :
    ∃ r, parseMpesaSms now s = some r ∧
      r.amount = some (if containsSub litReceived (jsToLower s) = true then v else -v) := by
  refine ⟨_, parse_eq_some now s tok hm, ?_⟩
  rw [← isReceivedText_eq_received]
  cases hr : isReceivedText (jsToLower s) <;> simp [hr, hv, jsNeg]

/-- Claim C10, witness: the text Ksh3 received parses to the amount plus
3 by the amended claim. -/
theorem claimC10_witness :
    findAmount (jsToLower witC10) = some tok3 ∧
    jsParseFloat (stripCommas tok3) = some 3 ∧
    (∃ r, parseMpesaSms litNow witC10 = some r ∧
      r.amount = some (if containsSub litReceived (jsToLower witC10) = true then 3 else -3)) := by
  have ha : jsParseFloat (stripCommas tok3) = some 3 := by
    rw [show stripCommas tok3 = ['3'] from by decide,
      jsParseFloat_digits _ (by decide) (by decide)]
    norm_num [show digitsVal ['3'] = 3 from by decide]
  exact ⟨by decide, ha, claimC10_amended litNow witC10 tok3 3 (by decide) ha⟩
